import Mathlib

/-!
# Verification of the meme-ingester server core

A shallow embedding of the meme-ingester Node.js server: the URL
normalizer (`processUrl`), the SQLite-backed record store (`db.js`),
the HTTP endpoint handlers (`server.js`) and the session-token sweep
(`cleanupSessionTokens`), together with theorems checking the
natural-language specification against this embedding.

Modelling conventions:
* JavaScript strings are lists of characters (`JStr`).
* The `links` table is a list of rows in insertion order plus the next
  AUTOINCREMENT id; the UNIQUE constraint on `hash` is enforced by
  `dbSaveLink` raising `DbError.sqliteConstraint`, exactly where the
  driver raises an error with `code === "SQLITE_CONSTRAINT"`.
* The WHATWG URL parser (`new URL`) and `crypto.createHash("sha256")`
  are platform libraries, not repository code; they enter the embedding
  as parameters (`parseURL`, `sha256Hex`).  `demoParse` is a concrete
  instantiation used to exercise the theorems on closed inputs.
* Throwing JavaScript code is modelled with `Option`/`Except`.
-/

namespace MemeIngester

/-- JavaScript strings, modelled as lists of characters. -/
abbrev JStr := List Char

/-- Constant `MAX_URL_LENGTH` from `server.js`. -/
def MAX_URL_LENGTH : Nat := 2048

/-- Constant `SESSION_EXPIRY` from `utilities.js` (one hour in milliseconds). -/
def SESSION_EXPIRY : Nat := 3600000

/-- Constant `MAX_TOKENS` from `utilities.js` (session-registry capacity). -/
def MAX_TOKENS : Nat := 1000

/-- JavaScript whitespace recognised by `String.prototype.trim`
(ASCII portion; the submitted URLs are ASCII). -/
def isJsSpace (c : Char) : Bool :=
  c == ' ' || c == '\t' || c == '\n' || c == '\r' || c == '\x0b' || c == '\x0c'

/-- JavaScript `String.prototype.trim`: strip leading and trailing whitespace. -/
def jsTrim (s : JStr) : JStr :=
  ((s.dropWhile isJsSpace).reverse.dropWhile isJsSpace).reverse

/-- The components of a parsed WHATWG URL that the server reads
(`new URL(x)` exposes `.protocol`, `.host`, `.pathname`; the query
string and fragment are what `processUrl` drops). -/
structure URLParts where
  protocol : JStr
  host : JStr
  pathname : JStr
  search : JStr
  fragment : JStr
deriving DecidableEq, Repr

/-- Protocol value `"http:"`. -/
def httpProto : JStr := "http:".toList

/-- Protocol value `"https:"`. -/
def httpsProto : JStr := "https:".toList

/-- Function `processUrl` from `utilities.js`, parameterised by the platform URL
parser.  Trims the input, rejects `<` and `>`, parses, rejects non-http(s)
protocols, and rebuilds `protocol + "//" + host + pathname` (dropping the
query string and fragment).  `none` models a thrown error. -/
def processUrl (parseURL : JStr → Option URLParts) (url : JStr) : Option JStr :=
  let freshUrl := jsTrim url
  if '<' ∈ freshUrl ∨ '>' ∈ freshUrl then none
  else
    match parseURL freshUrl with
    | none => none
    | some p =>
      if p.protocol = httpProto ∨ p.protocol = httpsProto then
        some (p.protocol ++ ('/' :: '/' :: p.host) ++ p.pathname)
      else none

/-- A row of the `links` table:
`id INTEGER PRIMARY KEY AUTOINCREMENT, url, datetime, flag CHAR(1),
hash TEXT UNIQUE`. -/
structure LinkRecord where
  id : Nat
  url : JStr
  datetime : JStr
  flag : Char
  hash : JStr
deriving DecidableEq, Repr

/-- The `links` table: rows in insertion order, plus the next
AUTOINCREMENT id. -/
structure LinksDb where
  rows : List LinkRecord
  nextId : Nat
deriving DecidableEq, Repr

/-- Errors raised by the store.  `sqliteConstraint` is the driver error
whose `code` is `"SQLITE_CONSTRAINT"` (UNIQUE violation on `hash`);
`storage` stands for any other storage failure, which carries no
`status` field. -/
inductive DbError where
  | sqliteConstraint
  | storage
deriving DecidableEq, Repr

/-- Function `dbGetRecordsByHash` from `db.js`:
`SELECT * FROM links WHERE hash = ?` via `db.get` (first matching row). -/
def dbGetRecordsByHash (hash : JStr) (db : LinksDb) : Option LinkRecord :=
  db.rows.find? (fun r => decide (r.hash = hash))

/-- Function `dbSaveLink` from `db.js`: `INSERT INTO links (url, datetime, flag,
hash) VALUES (?,?,?,?)`.  The UNIQUE constraint on `hash` makes the
insert fail with `SQLITE_CONSTRAINT` when the hash is already present. -/
def dbSaveLink (url datetime : JStr) (flag : Char) (hash : JStr)
    (db : LinksDb) : Except DbError LinksDb :=
  if db.rows.any (fun r => decide (r.hash = hash)) then
    .error .sqliteConstraint
  else
    .ok ⟨db.rows ++ [⟨db.nextId, url, datetime, flag, hash⟩], db.nextId + 1⟩

/-- The shape of a row returned by `/api/new-records`: only the columns
`id, url, datetime, hash` are selected. -/
structure NewRecordView where
  id : Nat
  url : JStr
  datetime : JStr
  hash : JStr
deriving DecidableEq, Repr

/-- Project a table row onto the columns exposed by `/api/new-records`. -/
def projNewRecord (r : LinkRecord) : NewRecordView :=
  ⟨r.id, r.url, r.datetime, r.hash⟩

/-- Function `dbGetNewRecords` from `db.js`:
`SELECT id, url, datetime, hash FROM links WHERE flag = 'N'`, rows in
table (insertion) order. -/
def dbGetNewRecords (db : LinksDb) : List NewRecordView :=
  (db.rows.filter (fun r => decide (r.flag = 'N'))).map projNewRecord

/-- Function `dbGetRecordById` from `db.js`: `SELECT * FROM links WHERE id = ?`. -/
def dbGetRecordById (id : Nat) (db : LinksDb) : Option LinkRecord :=
  db.rows.find? (fun r => decide (r.id = id))

/-- The row transformation of `dbMarkRecordComplete`: rows whose `id`
matches get `flag = 'C'` and `url = ''`; all other rows are untouched. -/
def completeRow (id : Nat) (r : LinkRecord) : LinkRecord :=
  if r.id = id then { r with flag := 'C', url := [] } else r

/-- Function `dbMarkRecordComplete` from `db.js`:
`UPDATE links SET flag = 'C', url = '' WHERE id = ?`.
The WHERE clause matches on `id` only — there is no condition on the
current `flag`.  Returns sqlite's changed-row count (the number of rows
matched by the WHERE clause) together with the updated table. -/
def dbMarkRecordComplete (id : Nat) (db : LinksDb) : Nat × LinksDb :=
  ((db.rows.filter (fun r => decide (r.id = id))).length,
   ⟨db.rows.map (completeRow id), db.nextId⟩)

/-! ## HTTP endpoint layer (`server.js`) -/

/-- A JSON HTTP response, reduced to the fields the spec talks about:
status code, the `success` flag, and the message / error string. -/
structure HttpResponse where
  status : Nat
  success : Bool
  body : JStr
deriving DecidableEq, Repr

/-- A 200 response `{success: true, message: msg}`. -/
def jsonOk (msg : JStr) : HttpResponse := ⟨200, true, msg⟩

/-- An error response `{error: msg}` with the given status. -/
def jsonError (status : Nat) (msg : JStr) : HttpResponse := ⟨status, false, msg⟩

/-- Function `handleServerError` from the source: responds with
`error.status || 500`.  A storage error carries no `status` field, so
the response status is 500. -/
def handleServerError (defaultMessage : JStr) : HttpResponse :=
  jsonError 500 defaultMessage

/-- The platform services the server uses: the WHATWG URL parser
(`new URL`) and hex-encoded sha256 (`crypto.createHash("sha256")`). -/
structure Env where
  parseURL : JStr → Option URLParts
  sha256Hex : JStr → JStr

def urlRequiredMsg : JStr := "URL is required".toList

def urlTooLongMsg : JStr :=
  "URL is too long. Maximum length is 2048 characters.".toList

def invalidUrlMsg : JStr := "Invalid URL".toList

def linkSavedMsg : JStr := "Link saved successfully".toList

def duplicateLinkMsg : JStr := "Duplicate link".toList

def errorSavingLinkMsg : JStr := "Error saving link".toList

def idHashRequiredMsg : JStr := "Both id and hash are required".toList

def notFoundMsg : JStr := "Record not found".toList

def mismatchMsg : JStr := "ID and hash do not match".toList

def notNewMsg : JStr := "Record is not new".toList

def updateFailedMsg : JStr := "Failed to update record".toList

def markedCompleteMsg : JStr := "Record marked as complete".toList

/-- The `catch` of `/api/submit-link`: a `SQLITE_CONSTRAINT` error
becomes a 409 duplicate conflict; any other error goes through
`handleServerError`. -/
def submitLinkCatch (e : DbError) : HttpResponse :=
  match e with
  | .sqliteConstraint => jsonError 409 duplicateLinkMsg
  | .storage => handleServerError errorSavingLinkMsg

/-- Handler of `POST /api/submit-link` (after the session-token middleware): body
field `url` (absent or empty is falsy → 400), length limit, then
`processUrl`, then insert with `flag = 'N'` and the sha256 of the
processed URL.  Returns the response and the resulting table. -/
def postSubmitLink (env : Env) (nowIso : JStr) (body : Option JStr)
    (db : LinksDb) : HttpResponse × LinksDb :=
  match body with
  | none => (jsonError 400 urlRequiredMsg, db)
  | some url =>
    if url = [] then (jsonError 400 urlRequiredMsg, db)
    else if MAX_URL_LENGTH < url.length then (jsonError 400 urlTooLongMsg, db)
    else
      match processUrl env.parseURL url with
      | none => (jsonError 400 invalidUrlMsg, db)
      | some processed =>
        match dbSaveLink processed nowIso 'N' (env.sha256Hex processed) db with
        | .ok db2 => (jsonOk linkSavedMsg, db2)
        | .error e => (submitLinkCatch e, db)

/-- Handler of `POST /api/mark-complete` (after the API-key middleware): body
fields `id` and `hash` (`!id || !hash` rejects a missing field, `0` and
the empty string); then fetch by id (404 when absent), compare the
stored hash (400 mismatch), require `flag === 'N'` (400 not new), then
run `dbMarkRecordComplete` and report 500 when it changed zero rows. -/
def postMarkComplete (id : Option Nat) (hash : Option JStr)
    (db : LinksDb) : HttpResponse × LinksDb :=
  if id.getD 0 = 0 ∨ hash.getD [] = [] then
    (jsonError 400 idHashRequiredMsg, db)
  else
    match dbGetRecordById (id.getD 0) db with
    | none => (jsonError 404 notFoundMsg, db)
    | some record =>
      if record.hash ≠ hash.getD [] then (jsonError 400 mismatchMsg, db)
      else if record.flag ≠ 'N' then (jsonError 400 notNewMsg, db)
      else
        let result := dbMarkRecordComplete (id.getD 0) db
        if result.1 = 0 then (jsonError 500 updateFailedMsg, db)
        else (jsonOk markedCompleteMsg, result.2)

/-- HTTP methods used by the app. -/
inductive Method where
  | GET
  | POST
deriving DecidableEq, Repr

/-- The routes `server.js` registers on the express app, in
registration order. -/
def appRoutes : List (Method × JStr) :=
  [ (.GET, "/".toList),
    (.GET, "/api/check-duplicate".toList),
    (.POST, "/api/submit-link".toList),
    (.GET, "/api/new-records".toList),
    (.POST, "/api/mark-complete".toList) ]

/-- The path the spec's table attributes to the claim-failure endpoint. -/
def markFailedPath : JStr := "/api/mark-failed".toList

/-- One request handled by the server, viewed by its effect on the
`links` table.  `GET /`, `GET /api/check-duplicate` and
`GET /api/new-records` only read the table, so they are identity steps;
the two writers are `/api/submit-link` and `/api/mark-complete`. -/
inductive AppStep (env : Env) : LinksDb → LinksDb → Prop where
  | getIndex (db : LinksDb) : AppStep env db db
  | checkDuplicate (db : LinksDb) : AppStep env db db
  | newRecords (db : LinksDb) : AppStep env db db
  | submitLink (nowIso : JStr) (body : Option JStr) (db : LinksDb) :
      AppStep env db (postSubmitLink env nowIso body db).2
  | markComplete (id : Option Nat) (hash : Option JStr) (db : LinksDb) :
      AppStep env db (postMarkComplete id hash db).2

/-- Invariants the real store provides: AUTOINCREMENT primary keys are
unique and below the next id to be assigned. -/
def WellFormed (db : LinksDb) : Prop :=
  (db.rows.map LinkRecord.id).Nodup ∧ ∀ r ∈ db.rows, r.id < db.nextId

/-! ## Session token registry (`utilities.js`) -/

/-- The session-token registry: a `Map` from token to issue time,
modelled as its entry list in insertion order (JavaScript `Map`
iteration order). -/
abbrev TokenMap := List (JStr × Nat)

/-- The sort comparator `(a, b) => a[1] - b[1]` of
`cleanupSessionTokens`: order registry entries by issue time. -/
def tsLE (a b : JStr × Nat) : Bool := decide (a.2 ≤ b.2)

/-- Function `cleanupSessionTokens` from `utilities.js`: delete every token with
`now - timestamp > SESSION_EXPIRY`; if more than `MAX_TOKENS` remain,
sort the remaining entries by timestamp (JavaScript `sort` is stable, as
is `mergeSort`) and delete the first `size - MAX_TOKENS` tokens of the
sorted order from the registry. -/
def cleanupSessionTokens (now : Nat) (m : TokenMap) : TokenMap :=
  let remaining := m.filter (fun p => decide (now - p.2 ≤ SESSION_EXPIRY))
  if MAX_TOKENS < remaining.length then
    let sortedTokens := remaining.mergeSort tsLE
    let tokensToRemove := sortedTokens.take (remaining.length - MAX_TOKENS)
    remaining.filter (fun p => ! tokensToRemove.any (fun q => decide (q.1 = p.1)))
  else remaining

/-! ## A concrete URL parser for closed instances

The abstract `parseURL` parameter stands for the WHATWG parser.  For
witnesses we instantiate it with this small concrete parser handling
`scheme://host/path?query#fragment`. -/

/-- A concrete absolute-URL parser used to instantiate the abstract
platform parser on closed inputs. -/
def demoParse (s : JStr) : Option URLParts :=
  let scheme := s.takeWhile (fun c => decide (c ≠ ':'))
  match s.drop scheme.length with
  | ':' :: '/' :: '/' :: rest2 =>
    let hostPart := rest2.takeWhile (fun c => decide (c ≠ '/' ∧ c ≠ '?' ∧ c ≠ '#'))
    let rest3 := rest2.drop hostPart.length
    let pathPart := rest3.takeWhile (fun c => decide (c ≠ '?' ∧ c ≠ '#'))
    let rest4 := rest3.drop pathPart.length
    let searchPart := rest4.takeWhile (fun c => decide (c ≠ '#'))
    if scheme = [] ∨ hostPart = [] then none
    else
      some ⟨scheme ++ [':'], hostPart,
            if pathPart = [] then ['/'] else pathPart,
            searchPart, rest4.drop searchPart.length⟩
  | _ => none

/-- The demo environment for witnesses: the concrete parser and an
arbitrary (identity) stand-in for the abstract hash function. -/
def demoEnv : Env := ⟨demoParse, fun s => s⟩

/-! ## Helper lemmas -/

/-- An element not satisfying the predicate is in `dropWhile p l` iff it
is in `l`. -/
theorem mem_dropWhile_iff {α} {p : α → Bool} {c : α} (h : p c = false) :
    ∀ {l : List α}, c ∈ l.dropWhile p ↔ c ∈ l := by
  intro l
  induction l with
  | nil => simp
  | cons a t ih =>
    rw [List.dropWhile_cons]
    by_cases ha : p a = true
    · rw [if_pos ha]
      constructor
      · intro hc
        exact List.mem_cons_of_mem _ (ih.mp hc)
      · intro hc
        rcases List.mem_cons.mp hc with rfl | hc
        · rw [ha] at h
          cases h
        · exact ih.mpr hc
    · rw [if_neg ha]

/-- A non-whitespace character survives `jsTrim` exactly when it occurs
in the original string. -/
theorem mem_jsTrim_iff {c : Char} (h : isJsSpace c = false) (s : JStr) :
    c ∈ jsTrim s ↔ c ∈ s := by
  unfold jsTrim
  rw [List.mem_reverse, mem_dropWhile_iff h, List.mem_reverse,
    mem_dropWhile_iff h]

/-- C4: `processUrl` fails exactly on inputs that contain `<` or `>`, do
not parse as an absolute URL, or parse with a scheme other than http or
https; on every other input it succeeds.  (The source trims the string
before checking, and the WHATWG parser receives the trimmed string;
containment of `<` / `>` is unaffected by trimming.) -/
theorem processUrl_invalid_iff (parseURL : JStr → Option URLParts)
    (raw : JStr) :
    processUrl parseURL raw = none ↔
      ('<' ∈ raw ∨ '>' ∈ raw ∨ parseURL (jsTrim raw) = none ∨
        ∃ p, parseURL (jsTrim raw) = some p ∧
          p.protocol ≠ httpProto ∧ p.protocol ≠ httpsProto) := by
  have hlt : ('<' ∈ jsTrim raw) ↔ '<' ∈ raw := mem_jsTrim_iff (by decide) raw
  have hgt : ('>' ∈ jsTrim raw) ↔ '>' ∈ raw := mem_jsTrim_iff (by decide) raw
  by_cases hc : '<' ∈ jsTrim raw ∨ '>' ∈ jsTrim raw
  · apply iff_of_true
    · simp only [processUrl, if_pos hc]
    · rcases hc with hc | hc
      · exact Or.inl (hlt.mp hc)
      · exact Or.inr (Or.inl (hgt.mp hc))
  · rcases hp : parseURL (jsTrim raw) with _ | p
    · apply iff_of_true
      · simp only [processUrl, if_neg hc, hp]
      · exact Or.inr (Or.inr (Or.inl rfl))
    · by_cases hproto : p.protocol = httpProto ∨ p.protocol = httpsProto
      · apply iff_of_false
        · simp only [processUrl, if_neg hc, hp, if_pos hproto]
          exact Option.some_ne_none _
        · push_neg
          refine ⟨fun h => hc (Or.inl (hlt.mpr h)),
            fun h => hc (Or.inr (hgt.mpr h)),
            by simp [hp], ?_⟩
          intro q hq hne
          have hpq : p = q := by injection hq
          subst hpq
          rcases hproto with h | h
          · exact absurd h hne
          · exact h
      · apply iff_of_true
        · simp only [processUrl, if_neg hc, hp, if_neg hproto]
        · push_neg at hproto
          exact Or.inr (Or.inr (Or.inr ⟨p, rfl, hproto.1, hproto.2⟩))

/-- C3: two http(s) URLs whose parses agree on scheme, host and path —
i.e. differ only in query string and/or fragment — normalize to the same
`scheme://host/path` string, hence hash identically under any
deterministic hash function. -/
theorem processUrl_drops_query_and_fragment
    (parseURL : JStr → Option URLParts) (sha256Hex : JStr → JStr)
    (raw1 raw2 : JStr) (p1 p2 : URLParts)
    (h1 : parseURL (jsTrim raw1) = some p1)
    (h2 : parseURL (jsTrim raw2) = some p2)
    (hproto : p1.protocol = p2.protocol) (hhost : p1.host = p2.host)
    (hpath : p1.pathname = p2.pathname)
    (hok : p1.protocol = httpProto ∨ p1.protocol = httpsProto)
    (hlt1 : '<' ∉ raw1) (hgt1 : '>' ∉ raw1)
    (hlt2 : '<' ∉ raw2) (hgt2 : '>' ∉ raw2) :
    processUrl parseURL raw1 =
      some (p1.protocol ++ ('/' :: '/' :: p1.host) ++ p1.pathname) ∧
    processUrl parseURL raw1 = processUrl parseURL raw2 ∧
    (processUrl parseURL raw1).map sha256Hex =
      (processUrl parseURL raw2).map sha256Hex := by
  have hc1 : ¬ ('<' ∈ jsTrim raw1 ∨ '>' ∈ jsTrim raw1) := by
    rw [mem_jsTrim_iff (by decide), mem_jsTrim_iff (by decide)]
    exact fun h => h.elim hlt1 hgt1
  have hc2 : ¬ ('<' ∈ jsTrim raw2 ∨ '>' ∈ jsTrim raw2) := by
    rw [mem_jsTrim_iff (by decide), mem_jsTrim_iff (by decide)]
    exact fun h => h.elim hlt2 hgt2
  have e1 : processUrl parseURL raw1 =
      some (p1.protocol ++ ('/' :: '/' :: p1.host) ++ p1.pathname) := by
    simp only [processUrl, if_neg hc1, h1, if_pos hok]
  have hok2 : p2.protocol = httpProto ∨ p2.protocol = httpsProto := by
    rw [← hproto]; exact hok
  have e2 : processUrl parseURL raw2 =
      some (p2.protocol ++ ('/' :: '/' :: p2.host) ++ p2.pathname) := by
    simp only [processUrl, if_neg hc2, h2, if_pos hok2]
  refine ⟨e1, ?_, ?_⟩
  · rw [e1, e2, hproto, hhost, hpath]
  · rw [e1, e2, hproto, hhost, hpath]

/-- Closed instance of C3: `http://example.com/meme?x=1` and
`http://example.com/meme?x=2#frag` normalize (and hash) identically. -/
theorem processUrl_drops_query_and_fragment_witness :
    processUrl demoParse ("http://example.com/meme?x=1".toList) =
      processUrl demoParse ("http://example.com/meme?x=2#frag".toList) :=
  (processUrl_drops_query_and_fragment demoParse (fun s => s)
    ("http://example.com/meme?x=1".toList)
    ("http://example.com/meme?x=2#frag".toList)
    ⟨"http:".toList, "example.com".toList, "/meme".toList, "?x=1".toList, []⟩
    ⟨"http:".toList, "example.com".toList, "/meme".toList, "?x=2".toList,
      "#frag".toList⟩
    (by decide) (by decide) rfl rfl rfl (Or.inl rfl)
    (by decide) (by decide) (by decide) (by decide)).2.1

/-- C2: submitting a URL whose normalized form's hash is already stored
makes the insert fail with the uniqueness-constraint violation, which
the endpoint maps to a 409 duplicate conflict; the store is unchanged
and the response is not a success.  Any other storage failure on insert
is mapped by the endpoint's catch to a 500. -/
theorem submitLink_duplicate_conflict (env : Env)
    (nowIso url processed : JStr) (db : LinksDb)
    (hne : url ≠ [])
    (hlen : url.length ≤ MAX_URL_LENGTH)
    (hproc : processUrl env.parseURL url = some processed)
    (hdup : ∃ r ∈ db.rows, r.hash = env.sha256Hex processed) :
    dbSaveLink processed nowIso 'N' (env.sha256Hex processed) db =
      .error .sqliteConstraint ∧
    (postSubmitLink env nowIso (some url) db).1 =
      jsonError 409 duplicateLinkMsg ∧
    (postSubmitLink env nowIso (some url) db).1.success = false ∧
    (postSubmitLink env nowIso (some url) db).2 = db ∧
    submitLinkCatch .storage = jsonError 500 errorSavingLinkMsg := by
  have hsave : dbSaveLink processed nowIso 'N' (env.sha256Hex processed) db =
      .error .sqliteConstraint := by
    unfold dbSaveLink
    rw [if_pos]
    rw [List.any_eq_true]
    obtain ⟨r, hr, hh⟩ := hdup
    exact ⟨r, hr, by simp [hh]⟩
  have hpost : postSubmitLink env nowIso (some url) db =
      (jsonError 409 duplicateLinkMsg, db) := by
    simp only [postSubmitLink, if_neg hne, if_neg (not_lt.mpr hlen), hproc,
      hsave, submitLinkCatch]
  exact ⟨hsave, by rw [hpost], by rw [hpost]; rfl, by rw [hpost], rfl⟩

/-- A table already holding the normalized example URL (hashed by the
identity stand-in hash function). -/
def dupDb : LinksDb :=
  ⟨[⟨1, "http://example.com/meme".toList, "2024".toList, 'N',
     "http://example.com/meme".toList⟩], 2⟩

/-- Closed instance of C2: re-submitting `http://example.com/meme?x=2`
against `dupDb` yields the 409 duplicate conflict and leaves the store
unchanged. -/
theorem submitLink_duplicate_conflict_witness :
    (postSubmitLink demoEnv ("2024".toList)
        (some ("http://example.com/meme?x=2".toList)) dupDb).1 =
      jsonError 409 duplicateLinkMsg ∧
    (postSubmitLink demoEnv ("2024".toList)
        (some ("http://example.com/meme?x=2".toList)) dupDb).2 = dupDb := by
  have h := submitLink_duplicate_conflict demoEnv ("2024".toList)
    ("http://example.com/meme?x=2".toList)
    ("http://example.com/meme".toList) dupDb
    (by decide) (by decide) (by decide) (by decide)
  exact ⟨h.2.1, h.2.2.2.1⟩

/-- C7: a mark-complete request naming an existing record whose stored
hash differs from the supplied hash gets a 400 mismatch error, and the
whole store is unchanged. -/
theorem markComplete_hash_mismatch_no_change (i : Nat) (h : JStr)
    (db : LinksDb) (r : LinkRecord)
    (hi : i ≠ 0) (hh : h ≠ [])
    (hfound : dbGetRecordById i db = some r)
    (hmism : r.hash ≠ h) :
    postMarkComplete (some i) (some h) db = (jsonError 400 mismatchMsg, db) := by
  simp only [postMarkComplete, Option.getD_some, hfound]
  rw [if_neg (by push_neg; exact ⟨hi, hh⟩), if_pos hmism]

/-- A one-row table used to exercise the mark-complete error paths. -/
def mismatchDb : LinksDb :=
  ⟨[⟨1, "u".toList, "d".toList, 'N', "a".toList⟩], 2⟩

/-- Closed instance of C7: supplying hash `"b"` for the record whose
stored hash is `"a"` yields the 400 mismatch response and no change. -/
theorem markComplete_hash_mismatch_no_change_witness :
    postMarkComplete (some 1) (some ("b".toList)) mismatchDb =
      (jsonError 400 mismatchMsg, mismatchDb) :=
  markComplete_hash_mismatch_no_change 1 ("b".toList) mismatchDb
    ⟨1, "u".toList, "d".toList, 'N', "a".toList⟩
    (by decide) (by decide) (by decide) (by decide)

/-- C9: the new-records listing returns exactly the rows whose flag is
`'N'`, projected onto `id, url, datetime, hash`, and (being a sublist of
the projected table) in insertion order. -/
theorem newRecords_exactly_new_in_order (db : LinksDb) :
    (∀ v, v ∈ dbGetNewRecords db ↔
        ∃ r ∈ db.rows, r.flag = 'N' ∧ v = projNewRecord r) ∧
    List.Sublist (dbGetNewRecords db) (db.rows.map projNewRecord) := by
  constructor
  · intro v
    unfold dbGetNewRecords
    simp only [List.mem_map, List.mem_filter, decide_eq_true_eq]
    constructor
    · rintro ⟨r, ⟨hr, hflag⟩, rfl⟩
      exact ⟨r, hr, hflag, rfl⟩
    · rintro ⟨r, hr, hflag, rfl⟩
      exact ⟨r, ⟨hr, hflag⟩, rfl⟩
  · exact (List.filter_sublist _).map _

/-- Completing a row does not change its id. -/
theorem completeRow_id (i : Nat) (r : LinkRecord) :
    (completeRow i r).id = r.id := by
  unfold completeRow
  split <;> rfl

/-- The changed-row count of the UPDATE is zero exactly when no record
has the given id. -/
theorem markComplete_changes_zero_iff (i : Nat) (db : LinksDb) :
    (dbMarkRecordComplete i db).1 = 0 ↔ dbGetRecordById i db = none := by
  unfold dbMarkRecordComplete dbGetRecordById
  rw [List.length_eq_zero, List.filter_eq_nil_iff, List.find?_eq_none]

/-- On the success path (record found, hash matches, flag `'N'`) the
mark-complete endpoint answers 200 and applies `completeRow` to every
row. -/
theorem postMarkComplete_success (i : Nat) (h : JStr) (db : LinksDb)
    (r : LinkRecord)
    (hi : i ≠ 0) (hh : h ≠ [])
    (hfound : dbGetRecordById i db = some r)
    (hhash : r.hash = h) (hflag : r.flag = 'N') :
    postMarkComplete (some i) (some h) db =
      (jsonOk markedCompleteMsg, ⟨db.rows.map (completeRow i), db.nextId⟩) := by
  have hchanges : ¬ (dbMarkRecordComplete i db).1 = 0 := by
    rw [markComplete_changes_zero_iff, hfound]
    exact fun hc => Option.noConfusion hc
  simp only [postMarkComplete, Option.getD_some, hfound]
  rw [if_neg (by push_neg; exact ⟨hi, hh⟩),
    if_neg (by rw [hhash]; exact fun hc => hc rfl),
    if_neg (by rw [hflag]; exact fun hc => hc rfl),
    if_neg hchanges]
  rfl

/-- Looking a row up by id after the UPDATE finds the completed version
of the row found before it. -/
theorem dbGetRecordById_after_update (i : Nat) (db : LinksDb) :
    dbGetRecordById i ⟨db.rows.map (completeRow i), db.nextId⟩ =
      (dbGetRecordById i db).map (completeRow i) := by
  unfold dbGetRecordById
  rw [List.find?_map]
  have hpred : ((fun r : LinkRecord => decide (r.id = i)) ∘ completeRow i) =
      (fun r : LinkRecord => decide (r.id = i)) := by
    funext x
    simp [Function.comp, completeRow_id]
  rw [hpred]

/-- A one-row table whose single record has status NEW. -/
def newRowDb : LinksDb :=
  ⟨[⟨1, "u".toList, "d".toList, 'N', "h".toList⟩], 2⟩

/-- C1 counterexample: the store's status-transition operation is the
UPDATE `dbMarkRecordComplete`, whose WHERE clause matches on `id` only.
Applied twice to the same id starting from a NEW record, the second
application still matches the (already completed) row and reports 1
changed row, not 0. -/
theorem markComplete_update_not_conditional_cex :
    (dbMarkRecordComplete 1 newRowDb).1 = 1 ∧
    (dbGetRecordById 1 (dbMarkRecordComplete 1 newRowDb).2).map
        LinkRecord.flag = some 'C' ∧
    (dbMarkRecordComplete 1 (dbMarkRecordComplete 1 newRowDb).2).1 = 1 := by
  decide

/-- C1 amended: the UPDATE conditions only on `id` — its changed-row
count is zero exactly when the record is missing, and an
already-transitioned row still counts as changed.  The protection
against double completion lives in the endpoint instead: it checks the
current status before updating, so of two sequential mark-complete
requests for a NEW record the first succeeds and the second is rejected
with 400 "Record is not new", leaving the store unchanged. -/
theorem markComplete_update_matches_id_only (i : Nat) (h : JStr)
    (db : LinksDb) (r : LinkRecord)
    (hi : i ≠ 0) (hh : h ≠ [])
    (hfound : dbGetRecordById i db = some r)
    (hhash : r.hash = h) (hflag : r.flag = 'N') :
    (∀ (j : Nat) (db2 : LinksDb),
        ((dbMarkRecordComplete j db2).1 = 0 ↔ dbGetRecordById j db2 = none)) ∧
    (postMarkComplete (some i) (some h) db).1 = jsonOk markedCompleteMsg ∧
    postMarkComplete (some i) (some h)
        ((postMarkComplete (some i) (some h) db).2) =
      (jsonError 400 notNewMsg, (postMarkComplete (some i) (some h) db).2) := by
  have hsucc := postMarkComplete_success i h db r hi hh hfound hhash hflag
  have hid : r.id = i := by
    have := List.find?_some hfound
    simpa using this
  have hfound2 : dbGetRecordById i
      (⟨db.rows.map (completeRow i), db.nextId⟩ : LinksDb) =
      some { r with flag := 'C', url := [] } := by
    rw [dbGetRecordById_after_update, hfound]
    simp only [Option.map_some']
    congr 1
    unfold completeRow
    rw [if_pos hid]
  refine ⟨markComplete_changes_zero_iff, by rw [hsucc], ?_⟩
  rw [hsucc]
  simp only [postMarkComplete, Option.getD_some, hfound2]
  rw [if_neg (by push_neg; exact ⟨hi, hh⟩),
    if_neg (by
      show ¬ ({ r with flag := 'C', url := [] } : LinkRecord).hash ≠ h
      have hrh : ({ r with flag := 'C', url := [] } : LinkRecord).hash = r.hash := rfl
      rw [hrh, hhash]
      exact fun hc => hc rfl),
    if_pos (by
      show ({ r with flag := 'C', url := [] } : LinkRecord).flag ≠ 'N'
      intro hc
      have hc' : ('C' : Char) = 'N' := hc
      exact absurd hc' (by decide))]

/-- Closed instance of the amended C1: against the one-row NEW table,
the first endpoint application succeeds and the second answers 400
"Record is not new" without touching the store. -/
theorem markComplete_update_matches_id_only_witness :
    (postMarkComplete (some 1) (some ("h".toList)) newRowDb).1 =
      jsonOk markedCompleteMsg ∧
    postMarkComplete (some 1) (some ("h".toList))
        ((postMarkComplete (some 1) (some ("h".toList)) newRowDb).2) =
      (jsonError 400 notNewMsg,
        (postMarkComplete (some 1) (some ("h".toList)) newRowDb).2) := by
  have h := markComplete_update_matches_id_only 1 ("h".toList) newRowDb
    ⟨1, "u".toList, "d".toList, 'N', "h".toList⟩
    (by decide) (by decide) (by decide) (by decide) (by decide)
  exact ⟨h.2.1, h.2.2⟩

/-- C5 counterexample: the spec's claim-failure endpoint does not exist —
`server.js` registers no `/api/mark-failed` route under either method. -/
theorem mark_failed_route_absent_cex :
    (Method.POST, markFailedPath) ∉ appRoutes ∧
    (Method.GET, markFailedPath) ∉ appRoutes := by
  decide

/-- Effect of a submit-link request on the table: either nothing (any
error path), or exactly one appended row with flag `'N'` and a fresh
AUTOINCREMENT id. -/
theorem postSubmitLink_db_cases (env : Env) (nowIso : JStr)
    (body : Option JStr) (db : LinksDb) :
    (postSubmitLink env nowIso body db).2 = db ∨
    ∃ processed : JStr,
      (postSubmitLink env nowIso body db).2 =
        ⟨db.rows ++ [⟨db.nextId, processed, nowIso, 'N',
           env.sha256Hex processed⟩], db.nextId + 1⟩ := by
  rcases body with _ | url
  · exact Or.inl rfl
  · by_cases h1 : url = []
    · simp only [postSubmitLink, if_pos h1]
      exact Or.inl trivial
    · by_cases h2 : MAX_URL_LENGTH < url.length
      · simp only [postSubmitLink, if_neg h1, if_pos h2]
        exact Or.inl trivial
      · rcases hp : processUrl env.parseURL url with _ | processed
        · simp only [postSubmitLink, if_neg h1, if_neg h2, hp]
          exact Or.inl trivial
        · by_cases h3 : db.rows.any
              (fun r => decide (r.hash = env.sha256Hex processed)) = true
          · simp only [postSubmitLink, if_neg h1, if_neg h2, hp, dbSaveLink,
              if_pos h3]
            exact Or.inl trivial
          · simp only [postSubmitLink, if_neg h1, if_neg h2, hp, dbSaveLink,
              if_neg h3]
            exact Or.inr ⟨processed, rfl⟩

/-- Effect of a mark-complete request on the table: either nothing (any
error path), or the UPDATE applied to a table whose matching record was
checked to be NEW. -/
theorem postMarkComplete_db_cases (id : Option Nat) (hash : Option JStr)
    (db : LinksDb) :
    (postMarkComplete id hash db).2 = db ∨
    ∃ (i : Nat) (r : LinkRecord),
      dbGetRecordById i db = some r ∧ r.flag = 'N' ∧
      (postMarkComplete id hash db).2 =
        ⟨db.rows.map (completeRow i), db.nextId⟩ := by
  by_cases h0 : id.getD 0 = 0 ∨ hash.getD [] = []
  · simp only [postMarkComplete, if_pos h0]
    exact Or.inl trivial
  · rcases hfind : dbGetRecordById (id.getD 0) db with _ | r
    · simp only [postMarkComplete, if_neg h0, hfind]
      exact Or.inl trivial
    · by_cases hhm : r.hash ≠ hash.getD []
      · simp only [postMarkComplete, if_neg h0, hfind, if_pos hhm]
        exact Or.inl trivial
      · by_cases hfl : r.flag ≠ 'N'
        · simp only [postMarkComplete, if_neg h0, hfind, if_neg hhm,
            if_pos hfl]
          exact Or.inl trivial
        · by_cases hch : (dbMarkRecordComplete (id.getD 0) db).1 = 0
          · simp only [postMarkComplete, if_neg h0, hfind, if_neg hhm,
              if_neg hfl, if_pos hch]
            exact Or.inl trivial
          · simp only [postMarkComplete, if_neg h0, hfind, if_neg hhm,
              if_neg hfl, if_neg hch]
            push_neg at hfl
            exact Or.inr ⟨id.getD 0, r, hfind, hfl, rfl⟩

/-- C5 amended: the claimed worker-facing mark-failed operation does not
exist.  No `/api/mark-failed` route is registered, and no request ever
moves a record into a FAILED state: every step of the server keeps all
status flags in {'N', 'C'}. -/
theorem no_mark_failed_endpoint (env : Env) (db db' : LinksDb)
    (hstep : AppStep env db db')
    (hflags : ∀ r ∈ db.rows, r.flag = 'N' ∨ r.flag = 'C') :
    (∀ r ∈ db'.rows, r.flag = 'N' ∨ r.flag = 'C') ∧
    (Method.POST, markFailedPath) ∉ appRoutes ∧
    (Method.GET, markFailedPath) ∉ appRoutes := by
  refine ⟨?_, by decide, by decide⟩
  cases hstep with
  | getIndex _ => exact hflags
  | checkDuplicate _ => exact hflags
  | newRecords _ => exact hflags
  | submitLink nowIso body _ =>
    rcases postSubmitLink_db_cases env nowIso body db with heq | ⟨processed, heq⟩
    · rw [heq]
      exact hflags
    · rw [heq]
      intro r hr
      rcases List.mem_append.mp hr with hr | hr
      · exact hflags r hr
      · rw [List.mem_singleton.mp hr]
        exact Or.inl rfl
  | markComplete id hash _ =>
    rcases postMarkComplete_db_cases id hash db with heq | ⟨i, rec, _, _, heq⟩
    · rw [heq]
      exact hflags
    · rw [heq]
      intro r hr
      rcases List.mem_map.mp hr with ⟨x, hx, rfl⟩
      unfold completeRow
      split
      · exact Or.inr rfl
      · exact hflags x hx

/-- Closed instance of the amended C5: one mark-complete step out of the
NEW one-row table keeps every flag in {'N', 'C'}, and the mark-failed
route is absent. -/
theorem no_mark_failed_endpoint_witness :
    (∀ r ∈ (postMarkComplete (some 1) (some ("h".toList)) newRowDb).2.rows,
        r.flag = 'N' ∨ r.flag = 'C') ∧
    (Method.POST, markFailedPath) ∉ appRoutes :=
  have h := no_mark_failed_endpoint demoEnv newRowDb
    (postMarkComplete (some 1) (some ("h".toList)) newRowDb).2
    (AppStep.markComplete (some 1) (some ("h".toList)) newRowDb)
    (by decide)
  ⟨h.1, h.2.1⟩

/-- In a well-formed table, rows are determined by their id. -/
theorem wellFormed_id_inj {db : LinksDb} (hwf : WellFormed db)
    {r r' : LinkRecord} (hr : r ∈ db.rows) (hr' : r' ∈ db.rows)
    (h : r'.id = r.id) : r' = r :=
  List.inj_on_of_nodup_map hwf.1 hr' hr h

/-- C6: across any request, a record's status either stays what it was
or moves from NEW to COMPLETE—no operation changes the status of a
record that is already terminal—and repeating mark-complete on an
already-completed record answers 400 "Record is not new" and leaves the
store untouched. -/
theorem status_transitions_only_from_new (env : Env) (db db' : LinksDb)
    (hwf : WellFormed db) (hstep : AppStep env db db') :
    (∀ r ∈ db.rows, ∀ r' ∈ db'.rows, r'.id = r.id →
        r'.flag = r.flag ∨ (r.flag = 'N' ∧ r'.flag = 'C')) ∧
    (∀ (i : Nat) (h : JStr) (r : LinkRecord), i ≠ 0 → h ≠ [] →
        dbGetRecordById i db = some r → r.hash = h → r.flag = 'C' →
        postMarkComplete (some i) (some h) db =
          (jsonError 400 notNewMsg, db)) := by
  constructor
  · have hsame : ∀ r ∈ db.rows, ∀ r' ∈ db.rows, r'.id = r.id →
        r'.flag = r.flag ∨ (r.flag = 'N' ∧ r'.flag = 'C') := by
      intro r hr r' hr' hid
      exact Or.inl (by rw [wellFormed_id_inj hwf hr hr' hid])
    cases hstep with
    | getIndex _ => exact hsame
    | checkDuplicate _ => exact hsame
    | newRecords _ => exact hsame
    | submitLink nowIso body _ =>
      rcases postSubmitLink_db_cases env nowIso body db with heq |
        ⟨processed, heq⟩
      · rw [heq]
        exact hsame
      · rw [heq]
        intro r hr r' hr' hid
        rcases List.mem_append.mp hr' with hr' | hr'
        · exact Or.inl (by rw [wellFormed_id_inj hwf hr hr' hid])
        · exfalso
          rw [List.mem_singleton.mp hr'] at hid
          have hlt := hwf.2 r hr
          have hid' : db.nextId = r.id := hid
          omega
    | markComplete id hash _ =>
      rcases postMarkComplete_db_cases id hash db with heq |
        ⟨i, rec, hfind, hflagN, heq⟩
      · rw [heq]
        exact hsame
      · rw [heq]
        intro r hr r' hr' hid
        rcases List.mem_map.mp hr' with ⟨x, hx, rfl⟩
        rw [completeRow_id] at hid
        have hxr : x = r := wellFormed_id_inj hwf hr hx hid
        subst hxr
        unfold completeRow
        by_cases hxi : x.id = i
        · rw [if_pos hxi]
          have hxrec : x = rec := by
            have hrecid : rec.id = i := by simpa using List.find?_some hfind
            apply wellFormed_id_inj hwf (List.mem_of_find?_eq_some hfind) hx
            rw [hxi, hrecid]
          right
          rw [hxrec]
          exact ⟨hflagN, rfl⟩
        · rw [if_neg hxi]
          exact Or.inl rfl
  · intro i h r hi hh hfound hhash hflagC
    simp only [postMarkComplete, Option.getD_some, hfound]
    rw [if_neg (by push_neg; exact ⟨hi, hh⟩),
      if_neg (by rw [hhash]; exact fun hc => hc rfl),
      if_pos (by rw [hflagC]; decide)]

/-- A one-row table whose single record is already COMPLETE. -/
def completedRowDb : LinksDb :=
  ⟨[⟨1, [], "d".toList, 'C', "h".toList⟩], 2⟩

/-- Closed instance of C6: mark-complete on the already-completed table
answers 400 "Record is not new" and leaves the store unchanged. -/
theorem status_transitions_only_from_new_witness :
    postMarkComplete (some 1) (some ("h".toList)) completedRowDb =
      (jsonError 400 notNewMsg, completedRowDb) :=
  (status_transitions_only_from_new demoEnv completedRowDb completedRowDb
      ⟨by decide, by decide⟩ (AppStep.getIndex completedRowDb)).2
    1 ("h".toList) ⟨1, [], "d".toList, 'C', "h".toList⟩
    (by decide) (by decide) (by decide) rfl rfl

/-- C10: a successful mark-complete keeps the response 200 and rewrites
the table by `completeRow` only: the matched record keeps its id,
datetime and hash (only `flag` becomes `'C'` and `url` becomes empty),
every row with a different id is kept as is, and `nextId` is unchanged. -/
theorem markComplete_frame (i : Nat) (h : JStr) (db : LinksDb)
    (r : LinkRecord)
    (hi : i ≠ 0) (hh : h ≠ [])
    (hfound : dbGetRecordById i db = some r)
    (hhash : r.hash = h) (hflag : r.flag = 'N') :
    (postMarkComplete (some i) (some h) db).1 = jsonOk markedCompleteMsg ∧
    (postMarkComplete (some i) (some h) db).2.nextId = db.nextId ∧
    (postMarkComplete (some i) (some h) db).2.rows =
      db.rows.map (completeRow i) ∧
    (∀ x ∈ db.rows, x.id ≠ i →
        x ∈ (postMarkComplete (some i) (some h) db).2.rows) ∧
    (∀ x ∈ db.rows, x.id = i →
        LinkRecord.mk x.id [] x.datetime 'C' x.hash ∈
          (postMarkComplete (some i) (some h) db).2.rows) := by
  have hsucc := postMarkComplete_success i h db r hi hh hfound hhash hflag
  rw [hsucc]
  refine ⟨rfl, rfl, rfl, ?_, ?_⟩
  · intro x hx hxi
    refine List.mem_map.mpr ⟨x, hx, ?_⟩
    unfold completeRow
    rw [if_neg hxi]
  · intro x hx hxi
    refine List.mem_map.mpr ⟨x, hx, ?_⟩
    unfold completeRow
    rw [if_pos hxi]

/-- Closed instance of C10: completing the NEW one-row table succeeds
and stores the record with its hash intact, flag `'C'` and url empty. -/
theorem markComplete_frame_witness :
    (postMarkComplete (some 1) (some ("h".toList)) newRowDb).1 =
      jsonOk markedCompleteMsg ∧
    LinkRecord.mk 1 [] ("d".toList) 'C' ("h".toList) ∈
      (postMarkComplete (some 1) (some ("h".toList)) newRowDb).2.rows := by
  have hf := markComplete_frame 1 ("h".toList) newRowDb
    ⟨1, "u".toList, "d".toList, 'N', "h".toList⟩
    (by decide) (by decide) (by decide) (by decide) (by decide)
  exact ⟨hf.1, hf.2.2.2.2 ⟨1, "u".toList, "d".toList, 'N', "h".toList⟩
    (by decide) rfl⟩

/-- The timestamp comparator is transitive. -/
theorem tsLE_trans : ∀ (a b c : JStr × Nat), tsLE a b → tsLE b c → tsLE a c := by
  intro a b c hab hbc
  simp only [tsLE, decide_eq_true_eq] at *
  omega

/-- The timestamp comparator is total. -/
theorem tsLE_total : ∀ (a b : JStr × Nat), tsLE a b || tsLE b a := by
  intro a b
  simp only [tsLE, Bool.or_eq_true, decide_eq_true_eq]
  omega

/-- C8: after one sweep, only tokens within the TTL remain (for any
registry), and a registry of `MAX_TOKENS + K` non-expired tokens with
distinct token strings is pruned to exactly `MAX_TOKENS`, every evicted
entry being no younger than every survivor (the K oldest go first). -/
theorem sessionSweep_expiry_and_capacity (now K : Nat) (m : TokenMap)
    (hnodup : (m.map Prod.fst).Nodup)
    (hfresh : ∀ p ∈ m, now - p.2 ≤ SESSION_EXPIRY)
    (hlen : m.length = MAX_TOKENS + K) (hK : 0 < K) :
    (∀ (m2 : TokenMap) (p : JStr × Nat),
        p ∈ cleanupSessionTokens now m2 → now - p.2 ≤ SESSION_EXPIRY) ∧
    (cleanupSessionTokens now m).length = MAX_TOKENS ∧
    (∀ e ∈ m, e ∉ cleanupSessionTokens now m →
        ∀ s ∈ cleanupSessionTokens now m, e.2 ≤ s.2) := by
  have part1 : ∀ (m2 : TokenMap) (p : JStr × Nat),
      p ∈ cleanupSessionTokens now m2 → now - p.2 ≤ SESSION_EXPIRY := by
    intro m2 p hp
    simp only [cleanupSessionTokens] at hp
    split at hp
    · have hp1 := (List.mem_filter.mp hp).1
      exact of_decide_eq_true (List.mem_filter.mp hp1).2
    · exact of_decide_eq_true (List.mem_filter.mp hp).2
  have hrem : m.filter (fun p => decide (now - p.2 ≤ SESSION_EXPIRY)) = m :=
    List.filter_eq_self.mpr (fun a ha => decide_eq_true (hfresh a ha))
  have hcond : MAX_TOKENS < m.length := by omega
  have hKeq : m.length - MAX_TOKENS = K := by omega
  have hcleanup : cleanupSessionTokens now m =
      m.filter (fun p =>
        ! ((m.mergeSort tsLE).take K).any (fun q => decide (q.1 = p.1))) := by
    simp only [cleanupSessionTokens, hrem]
    rw [if_pos hcond, hKeq]
  have hperm : List.Perm (m.mergeSort tsLE) m := List.mergeSort_perm m tsLE
  have hmnodup : m.Nodup := List.Nodup.of_map Prod.fst hnodup
  have hsnodup : (m.mergeSort tsLE).Nodup := hperm.symm.nodup hmnodup
  have hskeys : ((m.mergeSort tsLE).map Prod.fst).Nodup :=
    (hperm.map Prod.fst).symm.nodup hnodup
  have hsorted := List.sorted_mergeSort tsLE_trans tsLE_total m
  have hsplit : (m.mergeSort tsLE).take K ++ (m.mergeSort tsLE).drop K =
      m.mergeSort tsLE := List.take_append_drop K _
  have hB : ∀ p ∈ (m.mergeSort tsLE).drop K,
      (! ((m.mergeSort tsLE).take K).any (fun q => decide (q.1 = p.1))) =
        true := by
    intro p hp
    cases hx : ((m.mergeSort tsLE).take K).any (fun q => decide (q.1 = p.1)) with
    | false => rfl
    | true =>
      exfalso
      obtain ⟨q, hq, hq2⟩ := List.any_eq_true.mp hx
      have hqp : q.1 = p.1 := of_decide_eq_true hq2
      have hq_in : q ∈ m.mergeSort tsLE := (List.take_sublist K _).subset hq
      have hp_in : p ∈ m.mergeSort tsLE := (List.drop_sublist K _).subset hp
      have hqp2 : q = p := List.inj_on_of_nodup_map hskeys hq_in hp_in hqp
      subst hqp2
      have hnd := List.nodup_append.mp (by rw [hsplit]; exact hsnodup)
      exact hnd.2.2 hq hp
  have hfilter_eq : (m.mergeSort tsLE).filter
      (fun p => ! ((m.mergeSort tsLE).take K).any (fun q => decide (q.1 = p.1)))
      = (m.mergeSort tsLE).drop K := by
    have hsw : ((m.mergeSort tsLE).take K ++ (m.mergeSort tsLE).drop K).filter
        (fun p => ! ((m.mergeSort tsLE).take K).any
          (fun q => decide (q.1 = p.1)))
        = (m.mergeSort tsLE).filter
        (fun p => ! ((m.mergeSort tsLE).take K).any
          (fun q => decide (q.1 = p.1))) := by
      rw [hsplit]
    rw [← hsw, List.filter_append]
    have hnil : ((m.mergeSort tsLE).take K).filter
        (fun p => ! ((m.mergeSort tsLE).take K).any
          (fun q => decide (q.1 = p.1))) = [] := by
      apply List.filter_eq_nil_iff.mpr
      intro a ha
      have hany : ((m.mergeSort tsLE).take K).any
          (fun q => decide (q.1 = a.1)) = true :=
        List.any_eq_true.mpr ⟨a, ha, by simp⟩
      rw [hany]
      simp
    rw [hnil, List.filter_eq_self.mpr hB, List.nil_append]
  have hfperm : List.Perm (m.filter
      (fun p => ! ((m.mergeSort tsLE).take K).any (fun q => decide (q.1 = p.1))))
      ((m.mergeSort tsLE).drop K) :=
    (hperm.filter _).symm.trans (hfilter_eq ▸ List.Perm.refl _)
  refine ⟨part1, ?_, ?_⟩
  · rw [hcleanup, hfperm.length_eq, List.length_drop, hperm.length_eq, hlen]
    omega
  · intro e he hne s hs
    rw [hcleanup] at hne hs
    have hsdrop : s ∈ (m.mergeSort tsLE).drop K := hfperm.mem_iff.mp hs
    have hes : e ∈ m.mergeSort tsLE := hperm.mem_iff.mpr he
    have hetake : e ∈ (m.mergeSort tsLE).take K := by
      rcases List.mem_append.mp (by rw [hsplit]; exact hes) with h | h
      · exact h
      · exact absurd (hfperm.mem_iff.mpr h) hne
    have hpw := hsorted
    rw [← hsplit] at hpw
    have hle := (List.pairwise_append.mp hpw).2.2 e hetake s hsdrop
    simpa [tsLE] using hle

/-- A registry of `MAX_TOKENS + 1` distinct tokens, all issued at time 0
(so all non-expired at time 0). -/
def bigRegistry : TokenMap :=
  (List.range (MAX_TOKENS + 1)).map (fun n => (List.replicate n 'a', 0))

/-- Closed instance of C8: sweeping the over-capacity registry of
`MAX_TOKENS + 1` fresh tokens prunes it to exactly `MAX_TOKENS`. -/
theorem sessionSweep_expiry_and_capacity_witness :
    (cleanupSessionTokens 0 bigRegistry).length = MAX_TOKENS :=
  (sessionSweep_expiry_and_capacity 0 1 bigRegistry
    (by
      have hinj : Function.Injective (fun n => (List.replicate n 'a' : JStr)) :=
        fun a b h => by simpa using congrArg List.length h
      have hmap : bigRegistry.map Prod.fst =
          (List.range (MAX_TOKENS + 1)).map (fun n => List.replicate n 'a') := by
        simp [bigRegistry, List.map_map, Function.comp]
      rw [hmap]
      exact List.Nodup.map hinj (List.nodup_range _))
    (by intro p hp; omega)
    (by simp [bigRegistry])
    (by decide)).2.1

end MemeIngester
